import Mathlib

/-!
# Verification of the rm-analyzer transaction pipeline

A shallow embedding of the core of `rm-analyzer`
(`src/backend/rmanalyzer`): the data model (`models.py`), CSV row
normalization (`utils.py`), the ledger store
(`services/database_service.py`) and the balance updater
(`controller.py`), together with theorems settling the specification
claims about them.

Modelling conventions:
* Python `Decimal` (exact decimal arithmetic) is modelled as `ℚ`.
* Python `datetime.date` is modelled as a `(year, month, day)` triple
  with lexicographic comparison, which is how `date` objects compare.
* The SHA-256 digest used for row keys is modelled as an injective
  fingerprint of the hashed fields: `_generate_row_key` concatenates
  the ISO date, description, amount, account number and occurrence
  index with a `|` delimiter and hashes the result; the model keeps
  the fields themselves (digest collisions are outside the model).
* Azure Table Storage is modelled as a map from partition key to the
  list of row keys present in that partition; `query_entities` with a
  `PartitionKey eq` filter returns exactly that list.
* Batch submissions that can fail (`TableTransactionError`) are
  modelled by a caller-supplied failure predicate on chunk indices.
-/

set_option autoImplicit false

namespace RMAnalyzer

/-- `datetime.date`: calendar date. Comparison is lexicographic on
(year, month, day), as in Python. -/
structure Date where
  year : Nat
  month : Nat
  day : Nat
deriving DecidableEq, Repr

/-- Python `date` ordering: `a < b` lexicographically. -/
def Date.lt (a b : Date) : Bool :=
  a.year < b.year ||
    (a.year = b.year &&
      (a.month < b.month || (a.month = b.month && a.day < b.day)))

/-- Left-pad a numeral with zeros to two digits (`strftime` `%m`). -/
def pad2 (n : Nat) : String :=
  if n < 10 then "0" ++ toString n else toString n

/-- Left-pad a numeral with zeros to four digits (`strftime` `%Y`). -/
def pad4 (n : Nat) : String :=
  if n < 10 then "000" ++ toString n
  else if n < 100 then "00" ++ toString n
  else if n < 1000 then "0" ++ toString n
  else toString n

/-- `date.isoformat()`: `YYYY-MM-DD`. -/
def Date.isoformat (d : Date) : String :=
  pad4 d.year ++ "-" ++ pad2 d.month ++ "-" ++ pad2 d.day

/-- `models.Category`: spending categories for transactions. -/
inductive Category where
  | DINING
  | GROCERIES
  | PETS
  | BILLS
  | PURCHASES
  | SUBSCRIPTIONS
  | TRAVEL
  | OTHER
deriving DecidableEq, Repr

/-- The `value` string of each `Category` member. -/
def Category.value : Category → String
  | .DINING => "Dining & Drinks"
  | .GROCERIES => "Groceries"
  | .PETS => "Pets"
  | .BILLS => "Bills & Utilities"
  | .PURCHASES => "Shared Purchases"
  | .SUBSCRIPTIONS => "Shared Subscriptions"
  | .TRAVEL => "Travel & Vacation"
  | .OTHER => "Other"

/-- `models.IgnoredFrom`: flags for ignoring transactions from certain
calculations. -/
inductive IgnoredFrom where
  | BUDGET
  | EVERYTHING
  | NOTHING
deriving DecidableEq, Repr

/-- The `value` string of each `IgnoredFrom` member. -/
def IgnoredFrom.value : IgnoredFrom → String
  | .BUDGET => "budget"
  | .EVERYTHING => "everything"
  | .NOTHING => ""

/-- `models.Transaction`: a single financial transaction. -/
structure Transaction where
  date : Date
  name : String
  account_number : Int
  amount : ℚ
  category : Category
  ignore : IgnoredFrom
deriving DecidableEq, Repr

/-! ## Ledger store (`services/database_service.py`) -/

/-- The row key produced by `DatabaseService._generate_row_key`.
The source computes
`sha256(f"{t.date.isoformat()}|{t.name}|{t.amount}|{t.account_number}|{occurrence_index}")`;
the digest is modelled as an injective fingerprint, so the key keeps
the hashed fields (date rendered in ISO form, as in the source). -/
structure RowKey where
  dateIso : String
  name : String
  amount : ℚ
  account_number : Int
  occurrence_index : Nat
deriving DecidableEq, Repr

/-- `DatabaseService._generate_row_key`: deterministic unique key for a
transaction, with an occurrence index to handle identical transactions
strictly within the same upload batch. -/
def generate_row_key (t : Transaction) (occurrence_index : Nat) : RowKey :=
  { dateIso := t.date.isoformat
    name := t.name
    amount := t.amount
    account_number := t.account_number
    occurrence_index := occurrence_index }

/-- Partition key of a transaction:
`f"default_{t.date.strftime('%Y-%m')}"`. -/
def partKeyOf (t : Transaction) : String :=
  "default_" ++ pad4 t.date.year ++ "-" ++ pad2 t.date.month

/-- Signature used for the per-batch occurrence counters:
`(t.date, t.name, t.amount, t.account_number)`. -/
abbrev Sig := Date × String × ℚ × Int

/-- The occurrence-counter signature of a transaction. -/
def sigOf (t : Transaction) : Sig :=
  (t.date, t.name, t.amount, t.account_number)

/-- The transactions table, modelled as the list of row keys present in
each partition. -/
abbrev Db := String → List RowKey

/-- First-occurrence deduplication of a list, in first-appearance
order; models the iteration order of the keys of a Python
`defaultdict` (insertion order). -/
def dedupFirst {α : Type} [DecidableEq α] : List α → List α
  | [] => []
  | a :: l => a :: (dedupFirst l).filter (fun b => decide (b ≠ a))

/-- `partitions = collections.defaultdict(list); partitions[pk].append(t)`:
groups the input by partition key. Keys appear in first-insertion
order; each group holds that partition's transactions in input
order. -/
def partitionsOf (txns : List Transaction) : List (String × List Transaction) :=
  (dedupFirst (txns.map partKeyOf)).map
    (fun pk => (pk, txns.filter (fun t => decide (partKeyOf t = pk))))

/-- The row-key computation loop of `save_transactions` step 1:
`occurrences[sig] += 1; idx = occurrences[sig] - 1;
row_key = self._generate_row_key(t, idx)`, threading the occurrence
counters `occ`. -/
def transWithKeysAux (occ : Sig → Nat) : List Transaction → List (Transaction × RowKey)
  | [] => []
  | t :: rest =>
    (t, generate_row_key t (occ (sigOf t))) ::
      transWithKeysAux
        (fun s => if s = sigOf t then occ (sigOf t) + 1 else occ s) rest

/-- Row-key annotation of one partition's transactions, with all
occurrence counters starting at zero (`defaultdict(int)`). -/
def transWithKeys (ts : List Transaction) : List (Transaction × RowKey) :=
  transWithKeysAux (fun _ => 0) ts

/-- `save_transactions` step 3 for one partition: keep the rows whose
key is not among the partition's existing row keys. -/
def newOfPartition (db : Db) (pk : String) (ts : List Transaction) :
    List (Transaction × RowKey) :=
  (transWithKeys ts).filter (fun tr => decide (tr.2 ∉ db pk))

/-- `range(0, len(batch), 100)` chunking, written with a fuel argument
so that it is structurally recursive (`chunksFrom l.length l`). -/
def chunksFrom {α : Type} : Nat → List α → List (List α)
  | 0, _ => []
  | fuel + 1, l => if l.isEmpty then [] else l.take 100 :: chunksFrom fuel (l.drop 100)

/-- `batch[i : i + 100]` chunks of a batch, in order. -/
def chunks100 {α : Type} (l : List α) : List (List α) :=
  chunksFrom l.length l

/-- The row keys of a partition's batch that end up committed:
chunk `i` is submitted independently; a `TableTransactionError` on a
chunk is logged and the loop continues, so exactly the successful
chunks' rows are written. -/
def committedKeys (fails : Nat → Bool) (keys : List RowKey) : List RowKey :=
  ((((chunks100 keys).enum).filter (fun c => !(fails c.1))).map (fun c => c.2)).flatten

/-- The list returned by `DatabaseService.save_transactions`: per
partition (in first-appearance order), the transactions whose row key
was not already present, in input order. -/
def save_transactions_new (db : Db) (txns : List Transaction) : List Transaction :=
  (partitionsOf txns).flatMap (fun x => (newOfPartition db x.1 x.2).map Prod.fst)

/-- `DatabaseService.save_transactions`, with its effect on the table:
returns the newly-inserted list and the updated table. `fails pk i`
says whether the submission of chunk `i` of partition `pk` raises
`TableTransactionError` (such failures are caught and logged; the
loop continues). Each partition's upserts write entities whose
`PartitionKey` is that partition's key. -/
def save_transactions_run (db : Db) (txns : List Transaction)
    (fails : String → Nat → Bool) : List Transaction × Db :=
  ( save_transactions_new db txns
  , fun pk => db pk ++
      ((partitionsOf txns).filter (fun x => decide (x.1 = pk))).flatMap
        (fun x => committedKeys (fails x.1) ((newOfPartition db x.1 x.2).map Prod.snd)) )

/-! ### Specification-level description of `save_transactions`

`specNew` is written from the specification's words, not from the
grouping loop of the source: the occurrence index of the `i`-th input
transaction is the number of *earlier inputs with the same signature*
(signatures determine the calendar month, hence the partition), and a
transaction is new iff its key is absent from its own partition's
existing keys. It is compared against `save_transactions_new`. -/

/-- Number of transactions in `l` bearing signature `s`. -/
def countSig (l : List Transaction) (s : Sig) : Nat :=
  (l.filter (fun u => decide (sigOf u = s))).length

/-- Row-key annotation by input position: the occurrence index of each
transaction is the number of same-signature transactions before it
(`prev` holds the already-seen prefix). -/
def specKeysFrom (prev : List Transaction) : List Transaction → List (Transaction × RowKey)
  | [] => []
  | t :: rest =>
    (t, generate_row_key t (countSig prev (sigOf t))) ::
      specKeysFrom (prev ++ [t]) rest

/-- Specification-level "newly inserted" list: the order-preserving
subset of the input whose position-indexed row key is absent from the
transaction's own partition. -/
def specNew (db : Db) (txns : List Transaction) : List Transaction :=
  ((specKeysFrom [] txns).filter
    (fun tr => decide (tr.2 ∉ db (partKeyOf tr.1)))).map Prod.fst

/-! ## Expense aggregation (`models.py`: `Person`, `Group`) -/

/-- `models.Person`: a person with accounts and transactions. -/
structure Person where
  name : String
  email : String
  account_numbers : List Int
  transactions : List Transaction
deriving DecidableEq, Repr

/-- `Person.add_transaction`: append to the list. -/
def Person.add_transaction (p : Person) (t : Transaction) : Person :=
  { p with transactions := p.transactions ++ [t] }

/-- `Person.get_expenses(category=None)`: total expenses, optionally
filtered by category (`sum(..., start=Decimal("0.00"))`). -/
def Person.get_expenses (p : Person) (category : Option Category) : ℚ :=
  if p.transactions.isEmpty then 0
  else
    match category with
    | none => (p.transactions.map Transaction.amount).sum
    | some c =>
      ((p.transactions.filter (fun t => decide (t.category = c))).map
        Transaction.amount).sum

/-- `models.Group`: a group of people for expense analysis. -/
structure Group where
  members : List Person
deriving DecidableEq, Repr

/-- The attachment condition of `Group.add_transactions`:
`t.account_number in p.account_numbers and t.ignore == IgnoredFrom.NOTHING
and t.category != Category.OTHER`. -/
def attaches (p : Person) (t : Transaction) : Bool :=
  decide (t.account_number ∈ p.account_numbers) &&
    decide (t.ignore = IgnoredFrom.NOTHING) &&
    decide (t.category ≠ Category.OTHER)

/-- One iteration of the outer loop of `Group.add_transactions`: the
inner loop visits every member and appends `t` to each member whose
attachment condition holds (there is no `break`). -/
def addToMembers (members : List Person) (t : Transaction) : List Person :=
  members.map (fun p => if attaches p t then p.add_transaction t else p)

/-- `Group.add_transactions`: add a list of transactions to the
appropriate members. -/
def Group.add_transactions (g : Group) (ts : List Transaction) : Group :=
  { members := ts.foldl addToMembers g.members }

/-- `Group.get_expenses`: the total expenses of the group. -/
def Group.get_expenses (g : Group) : ℚ :=
  (g.members.map (fun p => p.get_expenses none)).sum

/-- `Group.get_expenses_difference`: difference in expenses between two
people; `raise ValueError("People args missing from group")` when
either argument is missing from the member list. -/
def Group.get_expenses_difference (g : Group) (p1 p2 : Person)
    (category : Option Category) : Except String ℚ :=
  if p1 ∈ g.members ∧ p2 ∈ g.members then
    .ok (p1.get_expenses category - p2.get_expenses category)
  else .error "People args missing from group"

/-- `Group.get_debt(p1, p2, p1_scale_factor)`: how much `p1` owes based
on a scale factor; same membership check as
`get_expenses_difference`. -/
def Group.get_debt (g : Group) (p1 p2 : Person) (p1_scale_factor : ℚ) :
    Except String ℚ :=
  if p1 ∈ g.members ∧ p2 ∈ g.members then
    .ok (p1_scale_factor * g.get_expenses - p1.get_expenses none)
  else .error "People args missing from group"

/-! ## Balance updater (`controller.py: Controller.process_queue_item`,
`database_service.py: update_card_balance`) -/

/-- `models.CreditCard` (the fields persisted and used by the
controller). -/
structure CreditCard where
  id : String
  name : String
  account_number : Int
  credit_limit : ℚ
  due_day : Nat
  statement_balance : ℚ
  current_balance : ℚ
  last_reconciled : Option Date
deriving DecidableEq, Repr

/-- `cards = {c.account_number: c for c in self.db_service.get_credit_cards()}`:
dict built left to right, a later card with the same account number
overwrites an earlier one. -/
def cardsByAccount (cards : List CreditCard) : Int → Option CreditCard :=
  cards.foldl
    (fun m c => fun a => if a = c.account_number then some c else m a)
    (fun _ => none)

/-- `card.last_reconciled and t.date < card.last_reconciled`: the
transaction predates the card's reconciliation cutoff. -/
def skipsReconciled (card : CreditCard) (t : Transaction) : Bool :=
  match card.last_reconciled with
  | some d => Date.lt t.date d
  | none => false

/-- `if k not in card_updates: card_updates[k] = Decimal("0.0");
card_updates[k] += t.amount` on an insertion-ordered association
list. -/
def addUpdate : List (Int × ℚ) → Int → ℚ → List (Int × ℚ)
  | [], k, v => [(k, v)]
  | (k', v') :: rest, k, v =>
    if k' = k then (k', v' + v) :: rest else (k', v') :: addUpdate rest k v

/-- The delta-accumulation loop over the newly-inserted transactions
(`for t in new_transactions: ...` in `process_queue_item`): a
transaction is skipped only when its account has a card and the card's
reconciliation cutoff postdates it; otherwise its amount is added to
its account's delta (whether or not a card exists). -/
def card_updates_aux (cards : Int → Option CreditCard)
    (updates : List (Int × ℚ)) : List Transaction → List (Int × ℚ)
  | [] => updates
  | t :: rest =>
    match cards t.account_number with
    | some card =>
      if skipsReconciled card t then card_updates_aux cards updates rest
      else card_updates_aux cards (addUpdate updates t.account_number t.amount) rest
    | none => card_updates_aux cards (addUpdate updates t.account_number t.amount) rest

/-- The `card_updates` dict after the accumulation loop. -/
def card_updates (cards : List CreditCard) (new_transactions : List Transaction) :
    List (Int × ℚ) :=
  card_updates_aux (cardsByAccount cards) [] new_transactions

/-- `DatabaseService.update_card_balance`: additive read-modify-write
of the card identified by the account number (`RowKey` lookup with an
`AccountNumber` query fallback); no card is changed when the account
is unknown. -/
def update_card_balance : List CreditCard → Int → ℚ → List CreditCard
  | [], _, _ => []
  | c :: rest, account_number, delta =>
    if c.account_number = account_number then
      { c with current_balance := c.current_balance + delta } :: rest
    else c :: update_card_balance rest account_number delta

/-- `for acc_num, delta in card_updates.items():
self.db_service.update_card_balance(acc_num, delta)`. -/
def apply_card_updates (cards : List CreditCard) (updates : List (Int × ℚ)) :
    List CreditCard :=
  updates.foldl (fun cs u => update_card_balance cs u.1 u.2) cards

/-- The whole balance-update phase of `process_queue_item` over the
newly-inserted list. -/
def process_balance_updates (cards : List CreditCard)
    (new_transactions : List Transaction) : List CreditCard :=
  apply_card_updates cards (card_updates cards new_transactions)

/-! ## Savings ledger (`database_service.py`: `save_savings`,
`_create_savings_upserts`) -/

/-- One submitted item of the savings payload (`{"name": ..., "cost": ...}`).
The `float(...)` conversion of costs is modelled as the identity on
exact values. -/
structure SavingsItem where
  name : String
  cost : ℚ
deriving DecidableEq, Repr

/-- The savings payload: `{"startingBalance": ..., "items": [...]}`. -/
structure SavingsData where
  startingBalance : ℚ
  items : List SavingsItem
deriving DecidableEq, Repr

/-- A single table operation of a savings batch; all operations of one
call share the partition key `f"{user_id}_{month}"`, so the operations
only record row-level data. -/
inductive SavingsOp where
  | delete (rowKey : String)
  | upsertSummary (startingBalance : ℚ)
  | create (rowKey : String) (itemName : String) (cost : ℚ)
deriving DecidableEq, Repr

/-- `DatabaseService._create_savings_upserts`: one SUMMARY upsert
followed by one create per item. Item row keys are
`f"ITEM_{uuid.uuid4()}"`; the non-deterministic UUIDs are supplied as
a function of the item's position. -/
def create_savings_upserts (data : SavingsData) (uuid : Nat → String) :
    List SavingsOp :=
  SavingsOp.upsertSummary data.startingBalance ::
    data.items.enum.map (fun x => SavingsOp.create ("ITEM_" ++ uuid x.1) x.2.name x.2.cost)

/-- The operation list built by `save_savings`: deletes of every
existing row except `SUMMARY`, then the upserts. -/
def save_savings_ops (existingRowKeys : List String) (data : SavingsData)
    (uuid : Nat → String) : List SavingsOp :=
  (existingRowKeys.filter (fun rk => decide (rk ≠ "SUMMARY"))).map SavingsOp.delete
    ++ create_savings_upserts data uuid

/-- The submission loop of the over-100 branch of `save_savings`,
starting at chunk index `i`: each chunk is submitted in order; a
`TableTransactionError` is re-raised, aborting the remaining chunks
but leaving the earlier chunks committed. Returns the committed
operations and whether an error was raised. -/
def submit_chunks_from (fails : Nat → Bool) (i : Nat) :
    List (List SavingsOp) → List SavingsOp × Bool
  | [] => ([], false)
  | c :: rest =>
    if fails i then ([], true)
    else
      let r := submit_chunks_from fails (i + 1) rest
      (c ++ r.1, r.2)

/-- The submission phase of `save_savings`: nothing is submitted for an
empty operation list; at most 100 operations are submitted as one
atomic transaction (a failure commits nothing and re-raises);
otherwise the operations are chunked into batches of 100 and
submitted best-effort, with a warning that atomicity is not
guaranteed. Returns (committed operations, raised?, warned?). -/
def save_savings_submit (ops : List SavingsOp) (fails : Nat → Bool) :
    List SavingsOp × Bool × Bool :=
  if ops.isEmpty then ([], false, false)
  else if ops.length ≤ 100 then
    if fails 0 then ([], true, false) else (ops, false, false)
  else
    let r := submit_chunks_from fails 0 (chunks100 ops)
    (r.1, r.2, true)

/-! ## CSV row normalization (`utils.py`: `to_transaction`)

A CSV row is modelled as an association list of header/value strings
(the `dict` handed over by `csv.DictReader`); lookup takes the last
binding, as a Python dict comprehension would keep it. Library-level
parsers (`int(...)`, `Decimal(...)`, `datetime.strptime`) are modelled
for finite numerals; `Decimal` specials (`NaN`, `Infinity`) and exotic
`int` spellings (underscores) are outside the model. -/

/-- A raw CSV row: header-to-value bindings. -/
abbrev Row := List (String × String)

/-- Python `str.strip()` on the character list: drop leading and
trailing whitespace. -/
def stripChars (cs : List Char) : List Char :=
  ((cs.dropWhile Char.isWhitespace).reverse.dropWhile Char.isWhitespace).reverse

/-- Python `str.strip()`. -/
def strip (s : String) : String :=
  String.mk (stripChars s.data)

/-- `{k.strip(): v.strip() for k, v in row.items() if k}`. -/
def clean_row (row : Row) : Row :=
  (row.filter (fun kv => decide (kv.1 ≠ ""))).map
    (fun kv => (strip kv.1, strip kv.2))

/-- Dict lookup: the last binding for the key wins. -/
def rowGet (r : Row) (k : String) : Option String :=
  (r.reverse.find? (fun kv => decide (kv.1 = k))).map Prod.snd

/-- Numeric value of a digit list, most significant first. -/
def digitsToNat (ds : List Char) : Nat :=
  ds.foldl (fun n c => n * 10 + (c.toNat - 48)) 0

/-- A nonempty all-digit string, as a number. -/
def parseDigits (s : String) : Option Nat :=
  if s.toList ≠ [] ∧ s.toList.all Char.isDigit then
    some (digitsToNat s.toList)
  else none

/-- `int(s)` on a stripped string: optional sign, then digits. -/
def parseInt (s : String) : Option Int :=
  match s.toList with
  | '-' :: rest =>
    (parseDigits (String.mk rest)).map (fun n => -(n : Int))
  | '+' :: rest => (parseDigits (String.mk rest)).map (fun n => (n : Int))
  | _ => (parseDigits s).map (fun n => (n : Int))

/-- `Decimal(s)` on a stripped string, for finite numerals: optional
sign, an integer part and/or a fractional part (at least one digit
overall), and an optional exponent. -/
def parseDecimal (s : String) : Option ℚ :=
  let afterSign : Bool × List Char :=
    match s.toList with
    | '-' :: rest => (true, rest)
    | '+' :: rest => (false, rest)
    | cs => (false, cs)
  let intPart := afterSign.2.takeWhile Char.isDigit
  let rest1 := afterSign.2.dropWhile Char.isDigit
  let fracAndRest : List Char × List Char :=
    match rest1 with
    | '.' :: r => (r.takeWhile Char.isDigit, r.dropWhile Char.isDigit)
    | _ => ([], rest1)
  let rest2 := if rest1.head? = some '.' then fracAndRest.2 else rest1
  if intPart = [] ∧ fracAndRest.1 = [] then none
  else
    let mantissa : ℚ :=
      (digitsToNat intPart : ℚ) +
        (digitsToNat fracAndRest.1 : ℚ) / ((10 : ℚ) ^ fracAndRest.1.length)
    let signed : ℚ := if afterSign.1 then -mantissa else mantissa
    match rest2 with
    | [] => some signed
    | 'e' :: e | 'E' :: e =>
      match e with
      | '-' :: ds =>
        if ds ≠ [] ∧ ds.all Char.isDigit then
          some (signed / ((10 : ℚ) ^ digitsToNat ds))
        else none
      | '+' :: ds =>
        if ds ≠ [] ∧ ds.all Char.isDigit then
          some (signed * ((10 : ℚ) ^ digitsToNat ds))
        else none
      | ds =>
        if ds ≠ [] ∧ ds.all Char.isDigit then
          some (signed * ((10 : ℚ) ^ digitsToNat ds))
        else none
    | _ => none

/-- Gregorian leap year. -/
def isLeap (y : Nat) : Bool :=
  (y % 4 = 0 && y % 100 ≠ 0) || y % 400 = 0

/-- Days in a month (`datetime` calendar validation). -/
def daysInMonth (y m : Nat) : Nat :=
  if m = 2 then (if isLeap y then 29 else 28)
  else if m = 4 ∨ m = 6 ∨ m = 9 ∨ m = 11 then 30
  else 31

/-- Build a validated `date` from year/month/day component strings:
the year has at most four digits (`%Y`), month and day at most two
(`%m`, `%d`), and the calendar ranges are enforced. -/
def mkValidDate (ys ms ds : String) : Option Date := do
  let y ← parseDigits ys
  let m ← parseDigits ms
  let d ← parseDigits ds
  if ys.length ≤ 4 ∧ ms.length ≤ 2 ∧ ds.length ≤ 2 ∧
      1 ≤ y ∧ 1 ≤ m ∧ m ≤ 12 ∧ 1 ≤ d ∧ d ≤ daysInMonth y m then
    some ⟨y, m, d⟩
  else none

/-- Split a character list on a separator character (the splitting
underlying `strptime` against a fixed-separator format). -/
def splitOnChar (sep : Char) : List Char → List (List Char)
  | [] => [[]]
  | c :: rest =>
    match splitOnChar sep rest with
    | [] => if c = sep then [[], []] else [[c]]
    | g :: gs => if c = sep then [] :: g :: gs else (c :: g) :: gs

/-- One `datetime.strptime(date_str, fmt).date()` attempt, for the four
formats of `DATE_FORMATS` (identified by their component order and
separator). -/
def tryFormat (sep : Char) (order : Nat) (s : String) : Option Date :=
  match (splitOnChar sep s.data).map String.mk with
  | [a, b, c] =>
    match order with
    | 0 => mkValidDate a b c      -- %Y-%m-%d or %Y/%m/%d
    | 1 => mkValidDate c a b      -- %m/%d/%Y
    | _ => mkValidDate c b a      -- %d/%m/%Y
  | _ => none

/-- `parse_date`: tries `["%Y-%m-%d", "%m/%d/%Y", "%d/%m/%Y", "%Y/%m/%d"]`
in order, first success wins; no match raises. -/
def parse_date (date_str : String) : Option Date :=
  (tryFormat '-' 0 date_str).orElse fun _ =>
    (tryFormat '/' 1 date_str).orElse fun _ =>
      (tryFormat '/' 2 date_str).orElse fun _ =>
        tryFormat '/' 0 date_str

/-- `Category(s)`: exact match against the closed value set. -/
def parseCategory (s : String) : Option Category :=
  if s = "Dining & Drinks" then some .DINING
  else if s = "Groceries" then some .GROCERIES
  else if s = "Pets" then some .PETS
  else if s = "Bills & Utilities" then some .BILLS
  else if s = "Shared Purchases" then some .PURCHASES
  else if s = "Shared Subscriptions" then some .SUBSCRIPTIONS
  else if s = "Travel & Vacation" then some .TRAVEL
  else if s = "Other" then some .OTHER
  else none

/-- `IgnoredFrom(s)`: `""`, `"budget"` or `"everything"`. -/
def parseIgnoredFrom (s : String) : Option IgnoredFrom :=
  if s = "budget" then some .BUDGET
  else if s = "everything" then some .EVERYTHING
  else if s = "" then some .NOTHING
  else none

/-- `utils.to_transaction`: parses a CSV row into a transaction or a
row-error message (error strings abbreviated from the source). Note
the asymmetry copied from the source: a missing `Account Number` key
defaults to `""` (which fails `int(...)`), while a missing `Amount`
key defaults to `"0"` (which parses); a missing `Category` key maps to
`OTHER` (as `Category(None)` raises `ValueError`) and a missing
`Ignored From` key defaults to `""` (`NOTHING`). -/
def to_transaction (row : Row) : Except String Transaction :=
  let cr := clean_row row
  match rowGet cr "Date" with
  | none => .error "Missing Date field"
  | some ds =>
    match parse_date ds with
    | none => .error "Date does not match any supported format"
    | some d =>
      match rowGet cr "Name" with
      | none => .error "Missing Name field"
      | some nm =>
        match parseInt ((rowGet cr "Account Number").getD "") with
        | none => .error "Invalid or missing Account Number"
        | some acct =>
          match parseDecimal ((rowGet cr "Amount").getD "0") with
          | none => .error "Invalid or missing Amount"
          | some amt =>
            let cat :=
              match rowGet cr "Category" with
              | some s => (parseCategory s).getD Category.OTHER
              | none => Category.OTHER
            match parseIgnoredFrom ((rowGet cr "Ignored From").getD "") with
            | none => .error "Invalid Ignored From value"
            | some ign => .ok ⟨d, nm, acct, amt, cat, ign⟩

/-! ## Supporting lemmas -/

theorem dedupFirst_mem {α : Type} [DecidableEq α] (a : α) :
    ∀ l : List α, a ∈ dedupFirst l ↔ a ∈ l := by
  intro l
  induction l with
  | nil => simp [dedupFirst]
  | cons b l ih =>
    simp only [dedupFirst, List.mem_cons, List.mem_filter, decide_eq_true_eq, ih]
    constructor
    · rintro (rfl | ⟨h, _⟩)
      · exact Or.inl rfl
      · exact Or.inr h
    · rintro (rfl | h)
      · exact Or.inl rfl
      · by_cases hab : a = b
        · exact Or.inl hab
        · exact Or.inr ⟨h, hab⟩

theorem dedupFirst_nodup {α : Type} [DecidableEq α] :
    ∀ l : List α, (dedupFirst l).Nodup := by
  intro l
  induction l with
  | nil => simp [dedupFirst]
  | cons b l ih =>
    rw [dedupFirst]
    refine List.Nodup.cons ?_ (List.Nodup.filter _ ih)
    intro hb
    have := (List.mem_filter.mp hb).2
    simp at this

theorem dedupFirst_eq_single {α : Type} [DecidableEq α] (a : α) :
    ∀ l : List α, l ≠ [] → (∀ x ∈ l, x = a) → dedupFirst l = [a] := by
  intro l
  induction l with
  | nil => intro h; exact absurd rfl h
  | cons b l ih =>
    intro _ hall
    have hb : b = a := hall b (List.mem_cons_self b l)
    subst hb
    rw [dedupFirst]
    rcases List.eq_nil_or_concat l with rfl | _
    · simp [dedupFirst]
    · have hl : dedupFirst l = [b] ∨ dedupFirst l = [] := by
        rcases l with _ | ⟨c, l'⟩
        · exact Or.inr rfl
        · exact Or.inl (ih (by simp) (fun x hx => hall x (List.mem_cons_of_mem b hx)))
      rcases hl with h | h <;> simp [h]

theorem chunksFrom_flatten {α : Type} :
    ∀ (fuel : Nat) (l : List α), l.length ≤ fuel →
      (chunksFrom fuel l).flatten = l := by
  intro fuel
  induction fuel with
  | zero =>
    intro l hl
    have : l = [] := List.eq_nil_of_length_eq_zero (Nat.le_zero.mp hl)
    simp [this, chunksFrom]
  | succ fuel ih =>
    intro l hl
    rw [chunksFrom]
    by_cases he : l.isEmpty
    · simp [he, List.isEmpty_iff.mp he]
    · have hne : l ≠ [] := by simpa [List.isEmpty_iff] using he
      have hlen : (l.drop 100).length ≤ fuel := by
        rw [List.length_drop]
        have h1 : 1 ≤ l.length := List.length_pos.mpr hne
        omega
      simp only [he, Bool.false_eq_true, if_false, List.flatten_cons, ih _ hlen]
      exact List.take_append_drop 100 l

theorem chunks100_flatten {α : Type} (l : List α) : (chunks100 l).flatten = l :=
  chunksFrom_flatten l.length l (Nat.le_refl _)

theorem chunksFrom_length_le {α : Type} :
    ∀ (fuel : Nat) (l : List α), ∀ c ∈ chunksFrom fuel l, c.length ≤ 100 := by
  intro fuel
  induction fuel with
  | zero => intro l c hc; simp [chunksFrom] at hc
  | succ fuel ih =>
    intro l c hc
    rw [chunksFrom] at hc
    by_cases he : l.isEmpty
    · simp [he] at hc
    · simp only [he, Bool.false_eq_true, if_false, List.mem_cons] at hc
      rcases hc with rfl | hc
      · simp
      · exact ih _ c hc

theorem committedKeys_all_ok (keys : List RowKey) :
    committedKeys (fun _ => false) keys = keys := by
  simp [committedKeys, List.enum_map_snd, chunks100_flatten]

theorem countSig_append (prev : List Transaction) (t : Transaction) (s : Sig) :
    countSig (prev ++ [t]) s =
      if s = sigOf t then countSig prev s + 1 else countSig prev s := by
  simp only [countSig, List.filter_append]
  by_cases h : s = sigOf t
  · simp [h]
  · have : sigOf t ≠ s := fun hc => h hc.symm
    simp [this, h]

theorem transWithKeysAux_eq_specKeysFrom :
    ∀ (ts prev : List Transaction),
      transWithKeysAux (fun s => countSig prev s) ts = specKeysFrom prev ts := by
  intro ts
  induction ts with
  | nil => intro prev; rfl
  | cons t rest ih =>
    intro prev
    rw [transWithKeysAux, specKeysFrom]
    have hocc :
        (fun s => if s = sigOf t then countSig prev (sigOf t) + 1 else countSig prev s) =
          (fun s => countSig (prev ++ [t]) s) := by
      funext s
      rw [countSig_append]
      by_cases h : s = sigOf t
      · subst h; simp
      · simp [h]
    rw [hocc, ih]

theorem transWithKeys_eq_specKeys (ts : List Transaction) :
    transWithKeys ts = specKeysFrom [] ts := by
  have h0 : (fun _ : Sig => 0) = (fun s => countSig [] s) := by
    funext s; simp [countSig]
  rw [transWithKeys, h0, transWithKeysAux_eq_specKeysFrom]

theorem specKeysFrom_map_fst :
    ∀ (ts prev : List Transaction), (specKeysFrom prev ts).map Prod.fst = ts := by
  intro ts
  induction ts with
  | nil => intro prev; rfl
  | cons t rest ih => intro prev; simp [specKeysFrom, ih]

theorem mem_specKeysFrom_fst {ts prev : List Transaction}
    {x : Transaction × RowKey} (hx : x ∈ specKeysFrom prev ts) : x.1 ∈ ts := by
  rw [← specKeysFrom_map_fst ts prev]
  exact List.mem_map_of_mem Prod.fst hx

theorem newOfPartition_homogeneous (db : Db) (pk : String)
    (ts : List Transaction) (h : ∀ t ∈ ts, partKeyOf t = pk) :
    (newOfPartition db pk ts).map Prod.fst = specNew db ts := by
  rw [newOfPartition, specNew, transWithKeys_eq_specKeys]
  congr 1
  apply List.filter_congr
  intro x hx
  rw [h x.1 (mem_specKeysFrom_fst hx)]

theorem mem_newOfPartition_fst {db : Db} {pk : String} {ts : List Transaction}
    {t : Transaction} (ht : t ∈ (newOfPartition db pk ts).map Prod.fst) :
    t ∈ ts := by
  rcases List.mem_map.mp ht with ⟨x, hx, rfl⟩
  have hx' : x ∈ transWithKeys ts := List.mem_of_mem_filter hx
  rw [transWithKeys_eq_specKeys] at hx'
  exact mem_specKeysFrom_fst hx'

theorem flatMap_filter_homog (F : String → List Transaction)
    (hF : ∀ pk' t, t ∈ F pk' → partKeyOf t = pk') (pk : String) :
    ∀ pks : List String, pks.Nodup →
      (pks.flatMap F).filter (fun t => decide (partKeyOf t = pk)) =
        if pk ∈ pks then F pk else [] := by
  intro pks
  induction pks with
  | nil => intro _; simp
  | cons pk0 rest ih =>
    intro hnd
    rw [List.flatMap_cons, List.filter_append, ih (List.Nodup.of_cons hnd)]
    by_cases h0 : pk0 = pk
    · subst h0
      have hrest : pk0 ∉ rest := (List.nodup_cons.mp hnd).1
      have hself :
          (F pk0).filter (fun t => decide (partKeyOf t = pk0)) = F pk0 := by
        apply List.filter_eq_self.mpr
        intro t ht
        simpa using hF pk0 t ht
      simp [hself, hrest]
    · have hnil : (F pk0).filter (fun t => decide (partKeyOf t = pk)) = [] := by
        apply List.filter_eq_nil_iff.mpr
        intro t ht
        have := hF pk0 t ht
        simp [this, h0]
      have hne : pk ≠ pk0 := fun hc => h0 hc.symm
      simp [hnil, List.mem_cons, hne]

theorem save_transactions_new_eq_flatMap (db : Db) (txns : List Transaction) :
    save_transactions_new db txns =
      (dedupFirst (txns.map partKeyOf)).flatMap
        (fun pk =>
          (newOfPartition db pk
            (txns.filter (fun t => decide (partKeyOf t = pk)))).map Prod.fst) := by
  rw [save_transactions_new, partitionsOf, List.flatMap_map]

/-- Per-partition characterization of the returned list: restricted to
any one partition, `save_transactions` returns exactly the
specification-level newly-inserted subset of that partition's input
transactions, in input order. -/
theorem save_transactions_new_filter (db : Db) (txns : List Transaction)
    (pk : String) :
    (save_transactions_new db txns).filter (fun t => decide (partKeyOf t = pk)) =
      specNew db (txns.filter (fun t => decide (partKeyOf t = pk))) := by
  rw [save_transactions_new_eq_flatMap]
  rw [flatMap_filter_homog _ ?hF pk _ (dedupFirst_nodup _)]
  case hF =>
    intro pk' t ht
    have := mem_newOfPartition_fst ht
    have := List.mem_filter.mp this
    simpa using this.2
  by_cases hmem : pk ∈ dedupFirst (txns.map partKeyOf)
  · rw [if_pos hmem]
    apply newOfPartition_homogeneous
    intro t ht
    simpa using (List.mem_filter.mp ht).2
  · rw [if_neg hmem]
    have : txns.filter (fun t => decide (partKeyOf t = pk)) = [] := by
      apply List.filter_eq_nil_iff.mpr
      intro t ht hdec
      apply hmem
      rw [dedupFirst_mem]
      exact List.mem_map.mpr ⟨t, ht, by simpa using hdec⟩
    rw [this]
    rfl

/-- When every input transaction falls in one partition, the returned
list is exactly the specification-level newly-inserted subset of the
whole input. -/
theorem save_transactions_new_single_partition (db : Db)
    (txns : List Transaction) (pk : String)
    (h : ∀ t ∈ txns, partKeyOf t = pk) :
    save_transactions_new db txns = specNew db txns := by
  rcases txns with _ | ⟨t0, rest⟩
  · rfl
  · rw [save_transactions_new_eq_flatMap]
    have hded : dedupFirst ((t0 :: rest).map partKeyOf) = [pk] := by
      apply dedupFirst_eq_single
      · simp
      · intro x hx
        rcases List.mem_map.mp hx with ⟨t, ht, rfl⟩
        exact h t ht
    have hfilter :
        (t0 :: rest).filter (fun t => decide (partKeyOf t = pk)) = t0 :: rest := by
      apply List.filter_eq_self.mpr
      intro t ht
      simpa using h t ht
    rw [hded, List.flatMap_cons, List.flatMap_nil, List.append_nil, hfilter]
    exact newOfPartition_homogeneous db pk _ (by intro t ht; exact h t ht)

/-- The specification-level newly-inserted list is an order-preserving
subset of the input. -/
theorem specNew_sublist (db : Db) (txns : List Transaction) :
    (specNew db txns).Sublist txns := by
  rw [specNew]
  have hsub := List.filter_sublist
    (l := specKeysFrom [] txns)
    (p := fun tr => decide (tr.2 ∉ db (partKeyOf tr.1)))
  have := hsub.map Prod.fst
  rwa [specKeysFrom_map_fst] at this

theorem save_twice_empty (db : Db) (txns : List Transaction) :
    save_transactions_new
      (save_transactions_run db txns (fun _ _ => false)).2 txns = [] := by
  rw [save_transactions_new_eq_flatMap]
  apply List.flatMap_eq_nil_iff.mpr
  intro pk hpk
  apply List.map_eq_nil_iff.mpr
  have hgrp :
      (pk, txns.filter (fun t => decide (partKeyOf t = pk))) ∈ partitionsOf txns :=
    List.mem_map.mpr ⟨pk, hpk, rfl⟩
  have hfil :
      (pk, txns.filter (fun t => decide (partKeyOf t = pk))) ∈
        (partitionsOf txns).filter (fun x => decide (x.1 = pk)) :=
    List.mem_filter.mpr ⟨hgrp, by simp⟩
  apply List.filter_eq_nil_iff.mpr
  intro x hx
  simp only [decide_eq_true_eq, not_not, Decidable.not_not]
  show x.2 ∈ (save_transactions_run db txns (fun _ _ => false)).2 pk
  rw [save_transactions_run]
  by_cases hmem : x.2 ∈ db pk
  · exact List.mem_append_left _ hmem
  · apply List.mem_append_right
    apply List.mem_flatMap.mpr
    refine ⟨(pk, txns.filter (fun t => decide (partKeyOf t = pk))), hfil, ?_⟩
    rw [committedKeys_all_ok]
    apply List.mem_map_of_mem Prod.snd
    exact List.mem_filter.mpr ⟨hx, by simpa using hmem⟩

theorem specKeysFrom_getElem :
    ∀ (ts prev : List Transaction) (i : Nat) (h : i < ts.length),
      (specKeysFrom prev ts)[i]? =
        some (ts.get ⟨i, h⟩,
          generate_row_key (ts.get ⟨i, h⟩)
            (countSig (prev ++ ts.take i) (sigOf (ts.get ⟨i, h⟩)))) := by
  intro ts
  induction ts with
  | nil => intro prev i h; simp at h
  | cons t rest ih =>
    intro prev i h
    cases i with
    | zero => simp [specKeysFrom]
    | succ i =>
      have h' : i < rest.length := by simpa using h
      rw [specKeysFrom]
      rw [List.getElem?_cons_succ, ih (prev ++ [t]) i h']
      simp [List.append_assoc]

/-! ## Concrete fixtures for the closed evaluations -/

/-- A January 2024 transaction. -/
def txA : Transaction := ⟨⟨2024, 1, 1⟩, "a", 1, 5, .DINING, .NOTHING⟩

/-- A February 2024 transaction. -/
def txB : Transaction := ⟨⟨2024, 2, 1⟩, "b", 1, 5, .DINING, .NOTHING⟩

/-- A second January 2024 transaction. -/
def txC : Transaction := ⟨⟨2024, 1, 2⟩, "c", 1, 5, .DINING, .NOTHING⟩

/-- A transaction duplicated inside one batch. -/
def txD : Transaction := ⟨⟨2024, 3, 5⟩, "gym", 2, 30, .BILLS, .NOTHING⟩

/-- A transaction for the failed-chunk evaluation. -/
def txE : Transaction := ⟨⟨2024, 4, 5⟩, "cafe", 3, 12, .DINING, .NOTHING⟩

/-- An empty transactions table. -/
def dbEmpty : Db := fun _ => []

/-! ## Claim theorems -/

/-- C1, counterexample: on the input `[txA, txB, txC]` (January,
February, January) against an empty table, `save_transactions` returns
`[txA, txC, txB]` — every transaction is new, but the partition-grouped
result is not an order-preserving subset (sublist) of the input. -/
theorem claim1_counterexample :
    save_transactions_new dbEmpty [txA, txB, txC] = [txA, txC, txB] ∧
    ¬ (save_transactions_new dbEmpty [txA, txB, txC]).Sublist [txA, txB, txC] := by
  have he : save_transactions_new dbEmpty [txA, txB, txC] = [txA, txC, txB] := by
    decide
  refine ⟨he, ?_⟩
  intro hsub
  rw [he] at hsub
  have hlen : ([txA, txC, txB] : List Transaction).length =
      ([txA, txB, txC] : List Transaction).length := by decide
  have : ([txA, txC, txB] : List Transaction) = [txA, txB, txC] :=
    hsub.eq_of_length hlen
  exact absurd this (by decide)

/-- C1, amended: `save_transactions` returns exactly those input
transactions whose computed row key was not already present in their
partition's existing-key set; the returned transactions of each
partition preserve the input order (an order-preserving subset of that
partition's input), and the whole returned list is an order-preserving
subset of the input whenever all transactions fall in one partition —
but across partitions the result is grouped by partition in
first-appearance order, not input order. -/
theorem claim1_theorem (db : Db) (txns : List Transaction) (pk : String) :
    ((save_transactions_new db txns).filter (fun t => decide (partKeyOf t = pk)) =
      specNew db (txns.filter (fun t => decide (partKeyOf t = pk))))
    ∧ (specNew db txns).Sublist txns
    ∧ ((∀ t ∈ txns, partKeyOf t = pk) →
        save_transactions_new db txns = specNew db txns) :=
  ⟨save_transactions_new_filter db txns pk, specNew_sublist db txns,
    save_transactions_new_single_partition db txns pk⟩

/-- Witness for C1 at a concrete single-partition input. -/
theorem claim1_witness :
    save_transactions_new dbEmpty [txA, txC] = specNew dbEmpty [txA, txC] :=
  (claim1_theorem dbEmpty [txA, txC] (partKeyOf txA)).2.2 (by decide)

/-- C2: the row key is a pure function of (date, description, amount,
account number, occurrence index), and re-saving the same transaction
list after a first fully-successful save returns an empty
newly-inserted list. -/
theorem claim2_theorem (db : Db) (txns : List Transaction)
    (t t' : Transaction) (i : Nat)
    (hd : t.date = t'.date) (hn : t.name = t'.name)
    (ha : t.amount = t'.amount) (hacc : t.account_number = t'.account_number) :
    generate_row_key t i = generate_row_key t' i ∧
    save_transactions_new
      (save_transactions_run db txns (fun _ _ => false)).2 txns = [] := by
  constructor
  · simp [generate_row_key, Date.isoformat, hd, hn, ha, hacc]
  · exact save_twice_empty db txns

/-- Witness for C2: two identical January transactions saved twice;
the second ingestion reports nothing new. -/
theorem claim2_witness :
    generate_row_key txA 0 = generate_row_key txA 0 ∧
    save_transactions_new
      (save_transactions_run dbEmpty [txA, txA, txB] (fun _ _ => false)).2
      [txA, txA, txB] = [] :=
  claim2_theorem dbEmpty [txA, txA, txB] txA txA 0 rfl rfl rfl rfl

/-- C3: within one call and one partition, the transaction at position
`i` receives as occurrence index the number of earlier same-signature
transactions in that partition's list (so the Nth occurrence gets
N−1); and a batch of two literally identical transactions saved into
an empty partition yields two distinct row keys (occurrence 0 and 1)
with both transactions reported as newly inserted. -/
theorem claim3_theorem (ts : List Transaction) (i : Nat) (h : i < ts.length) :
    ((transWithKeys ts)[i]? =
      some (ts.get ⟨i, h⟩,
        generate_row_key (ts.get ⟨i, h⟩)
          (countSig (ts.take i) (sigOf (ts.get ⟨i, h⟩)))))
    ∧ save_transactions_new dbEmpty [txD, txD] = [txD, txD]
    ∧ (transWithKeys [txD, txD]).map Prod.snd =
        [generate_row_key txD 0, generate_row_key txD 1]
    ∧ generate_row_key txD 0 ≠ generate_row_key txD 1 := by
  refine ⟨?_, by decide, by decide, by decide⟩
  rw [transWithKeys_eq_specKeys, specKeysFrom_getElem ts [] i h, List.nil_append]

/-- Witness for C3: the second of two identical transactions gets
occurrence index 1. -/
theorem claim3_witness :
    (transWithKeys [txD, txD])[1]? = some (txD, generate_row_key txD 1) ∧
    generate_row_key txD 0 ≠ generate_row_key txD 1 := by
  have h := claim3_theorem [txD, txD] 1 (by decide)
  refine ⟨?_, h.2.2.2⟩
  rw [h.1]
  decide

/-- C10: the newly-inserted list returned by `save_transactions` is
determined by the pre-submission existing-key query and diff alone —
it is the same under any pattern of chunk-submission failures — and a
transaction of a failed chunk is still returned even though its row
was never persisted (here: every chunk fails, `txE` is returned, its
key is absent from the resulting table). -/
theorem claim10_theorem (db : Db) (txns : List Transaction)
    (fails fails' : String → Nat → Bool) :
    (save_transactions_run db txns fails).1 = save_transactions_new db txns
    ∧ (save_transactions_run db txns fails).1 =
        (save_transactions_run db txns fails').1
    ∧ txE ∈ (save_transactions_run dbEmpty [txE] (fun _ _ => true)).1
    ∧ generate_row_key txE 0 ∉
        (save_transactions_run dbEmpty [txE] (fun _ _ => true)).2 (partKeyOf txE) :=
  ⟨rfl, rfl, by decide, by decide⟩

/-! ### Group attachment (C4) -/

theorem attaches_add_transaction (p : Person) (t u : Transaction) :
    attaches (p.add_transaction u) t = attaches p t := rfl

theorem foldl_addToMembers :
    ∀ (ts : List Transaction) (members : List Person),
      ts.foldl addToMembers members =
        members.map (fun p =>
          { p with transactions :=
              p.transactions ++ ts.filter (fun t => attaches p t) }) := by
  intro ts
  induction ts with
  | nil =>
    intro members
    simp only [List.foldl_nil, List.filter_nil, List.append_nil]
    exact (List.map_id members).symm
  | cons t rest ih =>
    intro members
    rw [List.foldl_cons, ih, addToMembers, List.map_map]
    apply List.map_congr_left
    intro p _
    by_cases h : attaches p t
    · simp only [Function.comp_apply, h, if_true, Person.add_transaction,
        attaches_add_transaction, List.filter_cons, h, List.append_assoc]
      rfl
    · simp only [Function.comp_apply, h, if_false, List.filter_cons]
      simp

/-- A member shared with the surrounding fixtures: account 1. -/
def alice : Person := ⟨"Alice", "alice@example.com", [1], []⟩

/-- A second member also owning account 1. -/
def bob : Person := ⟨"Bob", "bob@example.com", [1], []⟩

/-- A group whose two members share account number 1. -/
def gShared : Group := ⟨[alice, bob]⟩

/-- C4, counterexample: when two members share an account number, an
attachable transaction on that account is attached to BOTH members,
not to at most one: after `add_transactions [txA]` on a group whose
two members both own account 1, exactly 2 members hold `txA`. -/
theorem claim4_counterexample :
    ((gShared.add_transactions [txA]).members.filter
      (fun p => decide (txA ∈ p.transactions))).length = 2 := by decide

/-- C4, amended: after `Group.add_transactions`, a transaction is
attached to a member iff its account number is in that member's
account set, its ignore-flag is NOTHING, and its category is not
OTHER; it is attached to every member satisfying that rule (which can
be several when members share account numbers, not at most one), and a
transaction whose account number belongs to no member's account set is
silently dropped without error. -/
theorem claim4_theorem (g : Group) (ts : List Transaction) (u : Transaction) :
    ((g.add_transactions ts).members =
      g.members.map (fun p =>
        { p with transactions :=
            p.transactions ++ ts.filter (fun t => attaches p t) }))
    ∧ ((∀ p ∈ g.members, u.account_number ∉ p.account_numbers) →
        (g.add_transactions [u]).members = g.members) := by
  constructor
  · exact foldl_addToMembers ts g.members
  · intro hnone
    rw [Group.add_transactions, foldl_addToMembers]
    have : ∀ p ∈ g.members,
        (fun p : Person =>
          { p with transactions :=
              p.transactions ++ [u].filter (fun t => attaches p t) }) p = p := by
      intro p hp
      have hatt : attaches p u = false := by
        simp [attaches, hnone p hp]
      simp [List.filter_cons, hatt]
    rw [List.map_congr_left this]
    simp

/-- Witness for C4: a transaction on an account owned by nobody leaves
the group unchanged. -/
theorem claim4_witness :
    (gShared.add_transactions [txE]).members = gShared.members :=
  (claim4_theorem gShared [] txE).2 (by decide)

/-! ### Balance updater lemmas (C5) -/

/-- First-match lookup in the (insertion-ordered) update map. -/
def lookupUpdate : List (Int × ℚ) → Int → Option ℚ
  | [], _ => none
  | (k, v) :: rest, a => if k = a then some v else lookupUpdate rest a

/-- The delta recorded for an account (`0` when absent). -/
def deltaOf (ups : List (Int × ℚ)) (a : Int) : ℚ :=
  (lookupUpdate ups a).getD 0

/-- A transaction is accumulated (not skipped) by the delta loop. -/
def notSkipped (cards : Int → Option CreditCard) (t : Transaction) : Bool :=
  match cards t.account_number with
  | some card => !(skipsReconciled card t)
  | none => true

theorem card_updates_aux_cons_none (f : Int → Option CreditCard)
    (ups : List (Int × ℚ)) (t : Transaction) (rest : List Transaction)
    (hc : f t.account_number = none) :
    card_updates_aux f ups (t :: rest) =
      card_updates_aux f (addUpdate ups t.account_number t.amount) rest := by
  rw [card_updates_aux, hc]

theorem card_updates_aux_cons_skip (f : Int → Option CreditCard)
    (ups : List (Int × ℚ)) (t : Transaction) (rest : List Transaction)
    (card : CreditCard) (hc : f t.account_number = some card)
    (hs : skipsReconciled card t = true) :
    card_updates_aux f ups (t :: rest) = card_updates_aux f ups rest := by
  rw [card_updates_aux, hc]
  simp [hs]

theorem card_updates_aux_cons_add (f : Int → Option CreditCard)
    (ups : List (Int × ℚ)) (t : Transaction) (rest : List Transaction)
    (card : CreditCard) (hc : f t.account_number = some card)
    (hs : skipsReconciled card t = false) :
    card_updates_aux f ups (t :: rest) =
      card_updates_aux f (addUpdate ups t.account_number t.amount) rest := by
  rw [card_updates_aux, hc]
  simp [hs]

theorem lookupUpdate_addUpdate :
    ∀ (l : List (Int × ℚ)) (k : Int) (v : ℚ) (a : Int),
      lookupUpdate (addUpdate l k v) a =
        if k = a then some ((lookupUpdate l a).getD 0 + v)
        else lookupUpdate l a := by
  intro l
  induction l with
  | nil =>
    intro k v a
    by_cases h : k = a <;> simp [addUpdate, lookupUpdate, h]
  | cons kv rest ih =>
    intro k v a
    obtain ⟨k', v'⟩ := kv
    rw [addUpdate]
    by_cases h1 : k' = k
    · subst h1
      by_cases h2 : k' = a
      · subst h2; simp [lookupUpdate]
      · simp [lookupUpdate, h2]
    · rw [if_neg h1, lookupUpdate]
      by_cases h2 : k' = a
      · subst h2
        have h3 : ¬ k = k' := fun hx => h1 hx.symm
        simp [lookupUpdate, h3]
      · simp [lookupUpdate, h2, ih]

theorem mem_keys_addUpdate {l : List (Int × ℚ)} {k : Int} {v : ℚ} {a : Int} :
    a ∈ (addUpdate l k v).map Prod.fst ↔ a ∈ l.map Prod.fst ∨ a = k := by
  induction l with
  | nil => simp [addUpdate]
  | cons kv rest ih =>
    obtain ⟨k', v'⟩ := kv
    rw [addUpdate]
    by_cases h1 : k' = k
    · subst h1
      rw [if_pos rfl]
      simp only [List.map_cons, List.mem_cons]
      constructor
      · rintro (rfl | h)
        · exact Or.inl (Or.inl rfl)
        · exact Or.inl (Or.inr h)
      · rintro ((rfl | h) | rfl)
        · exact Or.inl rfl
        · exact Or.inr h
        · exact Or.inl rfl
    · rw [if_neg h1]
      simp only [List.map_cons, List.mem_cons, ih]
      tauto

theorem addUpdate_keys_nodup {l : List (Int × ℚ)} (k : Int) (v : ℚ)
    (h : (l.map Prod.fst).Nodup) : ((addUpdate l k v).map Prod.fst).Nodup := by
  induction l with
  | nil => simp [addUpdate]
  | cons kv rest ih =>
    obtain ⟨k', v'⟩ := kv
    rw [addUpdate]
    simp only [List.map_cons, List.nodup_cons] at h
    by_cases h1 : k' = k
    · subst h1
      simpa [List.nodup_cons] using h
    · rw [if_neg h1]
      simp only [List.map_cons, List.nodup_cons]
      refine ⟨?_, ih h.2⟩
      rw [mem_keys_addUpdate]
      rintro (hc | rfl)
      · exact h.1 hc
      · exact h1 rfl

theorem lookupUpdate_eq_none {l : List (Int × ℚ)} {a : Int}
    (h : a ∉ l.map Prod.fst) : lookupUpdate l a = none := by
  induction l with
  | nil => rfl
  | cons kv rest ih =>
    obtain ⟨k', v'⟩ := kv
    simp only [List.map_cons, List.mem_cons] at h
    push_neg at h
    rw [lookupUpdate, if_neg (fun hc => h.1 hc.symm), ih h.2]

theorem card_updates_aux_keys_nodup (f : Int → Option CreditCard) :
    ∀ (txns : List Transaction) (ups : List (Int × ℚ)),
      (ups.map Prod.fst).Nodup →
      ((card_updates_aux f ups txns).map Prod.fst).Nodup := by
  intro txns
  induction txns with
  | nil => intro ups h; exact h
  | cons t rest ih =>
    intro ups h
    cases hc : f t.account_number with
    | none =>
      rw [card_updates_aux_cons_none f ups t rest hc]
      exact ih _ (addUpdate_keys_nodup _ _ h)
    | some card =>
      by_cases hs : skipsReconciled card t
      · rw [card_updates_aux_cons_skip f ups t rest card hc hs]
        exact ih ups h
      · rw [card_updates_aux_cons_add f ups t rest card hc
          (Bool.not_eq_true _ ▸ hs)]
        exact ih _ (addUpdate_keys_nodup _ _ h)

theorem deltaOf_card_updates_aux (f : Int → Option CreditCard) :
    ∀ (txns : List Transaction) (ups : List (Int × ℚ)) (a : Int),
      deltaOf (card_updates_aux f ups txns) a =
        deltaOf ups a +
          ((txns.filter (fun t =>
            decide (t.account_number = a) && notSkipped f t)).map
              Transaction.amount).sum := by
  intro txns
  induction txns with
  | nil => intro ups a; simp [card_updates_aux]
  | cons t rest ih =>
    intro ups a
    rw [List.filter_cons]
    have hadd :
        ∀ ups', deltaOf (addUpdate ups' t.account_number t.amount) a =
          deltaOf ups' a + (if t.account_number = a then t.amount else 0) := by
      intro ups'
      rw [deltaOf, lookupUpdate_addUpdate]
      by_cases h : t.account_number = a
      · subst h; simp [deltaOf]
      · simp [h, deltaOf]
    cases hc : f t.account_number with
    | none =>
      have hns : notSkipped f t = true := by simp [notSkipped, hc]
      rw [card_updates_aux_cons_none f ups t rest hc, ih, hadd, hns]
      by_cases h : t.account_number = a
      · simp [h]
        ring
      · simp [h]
    | some card =>
      by_cases hs : skipsReconciled card t
      · have hns : notSkipped f t = false := by simp [notSkipped, hc, hs]
        rw [card_updates_aux_cons_skip f ups t rest card hc hs, ih, hns]
        simp
      · have hs' : skipsReconciled card t = false := Bool.not_eq_true _ ▸ hs
        have hns : notSkipped f t = true := by simp [notSkipped, hc, hs']
        rw [card_updates_aux_cons_add f ups t rest card hc hs', ih, hadd, hns]
        by_cases h : t.account_number = a
        · simp [h]
          ring
        · simp [h]

theorem update_card_balance_map (k : Int) (v : ℚ) :
    ∀ cards : List CreditCard,
      (cards.map CreditCard.account_number).Nodup →
      update_card_balance cards k v =
        cards.map (fun c =>
          if c.account_number = k then
            { c with current_balance := c.current_balance + v }
          else c) := by
  intro cards
  induction cards with
  | nil => intro _; rfl
  | cons c rest ih =>
    intro h
    simp only [List.map_cons, List.nodup_cons] at h
    rw [update_card_balance]
    by_cases hk : c.account_number = k
    · rw [if_pos hk]
      simp only [List.map_cons, if_pos hk]
      congr 1
      have hrest : ∀ c' ∈ rest, c'.account_number ≠ k := by
        intro c' hc' he
        exact h.1 (hk ▸ he ▸ List.mem_map_of_mem CreditCard.account_number hc')
      have : ∀ c' ∈ rest,
          (fun c' : CreditCard =>
            if c'.account_number = k then
              { c' with current_balance := c'.current_balance + v }
            else c') c' = c' := by
        intro c' hc'
        simp [hrest c' hc']
      rw [List.map_congr_left this]
      simp
    · rw [if_neg hk]
      simp only [List.map_cons, if_neg hk]
      rw [ih h.2]

theorem update_card_balance_accounts (cards : List CreditCard) (k : Int) (v : ℚ) :
    (update_card_balance cards k v).map CreditCard.account_number =
      cards.map CreditCard.account_number := by
  induction cards with
  | nil => rfl
  | cons c rest ih =>
    rw [update_card_balance]
    by_cases hk : c.account_number = k
    · simp [hk]
    · simp [hk, ih]

theorem apply_card_updates_map :
    ∀ (ups : List (Int × ℚ)) (cards : List CreditCard),
      (ups.map Prod.fst).Nodup →
      (cards.map CreditCard.account_number).Nodup →
      apply_card_updates cards ups =
        cards.map (fun c =>
          { c with current_balance :=
              c.current_balance + deltaOf ups c.account_number }) := by
  intro ups
  induction ups with
  | nil =>
    intro cards _ _
    have h0 : ∀ c ∈ cards,
        (fun c : CreditCard =>
          { c with current_balance :=
              c.current_balance + deltaOf [] c.account_number }) c = c := by
      intro c _
      simp [deltaOf, lookupUpdate]
    rw [apply_card_updates, List.foldl_nil, List.map_congr_left h0]
    simp
  | cons kv rest ih =>
    intro cards hnk hnc
    obtain ⟨k, v⟩ := kv
    simp only [List.map_cons, List.nodup_cons] at hnk
    have step : apply_card_updates cards ((k, v) :: rest) =
        apply_card_updates (update_card_balance cards k v) rest := rfl
    rw [step, ih _ hnk.2 (by rw [update_card_balance_accounts]; exact hnc),
      update_card_balance_map k v cards hnc, List.map_map]
    apply List.map_congr_left
    intro c _
    by_cases hk : c.account_number = k
    · have hz : deltaOf rest k = 0 := by
        rw [deltaOf, lookupUpdate_eq_none hnk.1]
        rfl
      have hdelk : deltaOf ((k, v) :: rest) k = v := by
        simp [deltaOf, lookupUpdate]
      simp [Function.comp_apply, hk, hdelk, hz]
    · have hne : ¬ k = c.account_number := fun he => hk he.symm
      have hdel : deltaOf ((k, v) :: rest) c.account_number =
          deltaOf rest c.account_number := by
        simp [deltaOf, lookupUpdate, hne]
      simp [Function.comp_apply, hk, hdel]

theorem cardsByAccount_foldl_notmem :
    ∀ (cards : List CreditCard) (m : Int → Option CreditCard) (a : Int),
      a ∉ cards.map CreditCard.account_number →
      cards.foldl
        (fun m c => fun x => if x = c.account_number then some c else m x) m a =
        m a := by
  intro cards
  induction cards with
  | nil => intro m a _; rfl
  | cons c rest ih =>
    intro m a ha
    simp only [List.map_cons, List.mem_cons] at ha
    push_neg at ha
    rw [List.foldl_cons, ih _ a ha.2]
    simp [ha.1]

theorem cardsByAccount_eq_self :
    ∀ (cards : List CreditCard) (m : Int → Option CreditCard) (c : CreditCard),
      c ∈ cards → (cards.map CreditCard.account_number).Nodup →
      cards.foldl
        (fun m c => fun x => if x = c.account_number then some c else m x) m
        c.account_number = some c := by
  intro cards
  induction cards with
  | nil => intro m c hc; simp at hc
  | cons c0 rest ih =>
    intro m c hc hnd
    simp only [List.map_cons, List.nodup_cons] at hnd
    rw [List.foldl_cons]
    rcases List.mem_cons.mp hc with rfl | hc'
    · rw [cardsByAccount_foldl_notmem rest _ c.account_number hnd.1]
      simp
    · exact ih _ c hc' hnd.2

theorem cardsByAccount_self (cards : List CreditCard) (c : CreditCard)
    (hc : c ∈ cards) (hnd : (cards.map CreditCard.account_number).Nodup) :
    cardsByAccount cards c.account_number = some c :=
  cardsByAccount_eq_self cards (fun _ => none) c hc hnd

/-- A credit card reconciled through 2024-01-15, with balance 100. -/
def cardEx : CreditCard := ⟨"1", "card", 1, 1000, 15, 0, 100, some ⟨2024, 1, 15⟩⟩

/-- A newly-inserted transaction predating the reconciliation cutoff. -/
def txEarly : Transaction := ⟨⟨2024, 1, 10⟩, "early", 1, 50, .DINING, .NOTHING⟩

/-- A newly-inserted transaction on/after the reconciliation cutoff. -/
def txLate : Transaction := ⟨⟨2024, 1, 20⟩, "late", 1, 50, .DINING, .NOTHING⟩

/-- C5: over the newly-inserted list, each card's balance advances by
exactly the sum of the signed amounts of the transactions on its
account that are not cut off by `last_reconciled` (a transaction is
skipped iff the card has a cutoff and the transaction date strictly
precedes it); the accumulated update map carries one entry per
account, so each non-zero delta is applied as exactly one additive
update per affected card, never one update per transaction; and
transactions on accounts without a card change no card. -/
theorem claim5_theorem (cards : List CreditCard) (txns : List Transaction)
    (hnd : (cards.map CreditCard.account_number).Nodup) :
    ((card_updates cards txns).map Prod.fst).Nodup
    ∧ process_balance_updates cards txns =
        cards.map (fun c =>
          { c with current_balance := c.current_balance +
              ((txns.filter (fun t =>
                decide (t.account_number = c.account_number) &&
                  !(skipsReconciled c t))).map Transaction.amount).sum }) := by
  have hkeys : ((card_updates cards txns).map Prod.fst).Nodup :=
    card_updates_aux_keys_nodup _ txns [] (by simp)
  refine ⟨hkeys, ?_⟩
  rw [process_balance_updates, apply_card_updates_map _ _ hkeys hnd]
  apply List.map_congr_left
  intro c hc
  have hdelta : deltaOf (card_updates cards txns) c.account_number =
      ((txns.filter (fun t =>
        decide (t.account_number = c.account_number) &&
          notSkipped (cardsByAccount cards) t)).map Transaction.amount).sum := by
    rw [card_updates, deltaOf_card_updates_aux]
    simp [deltaOf, lookupUpdate]
  have hpred : ∀ t ∈ txns,
      (decide (t.account_number = c.account_number) &&
        notSkipped (cardsByAccount cards) t) =
      (decide (t.account_number = c.account_number) &&
        !(skipsReconciled c t)) := by
    intro t _
    by_cases h : t.account_number = c.account_number
    · have hself : cardsByAccount cards c.account_number = some c :=
        cardsByAccount_self cards c hc hnd
      simp [h, notSkipped, hself]
    · simp [h]
  rw [hdelta, List.filter_congr hpred]

/-- Witness for C5, the reconciliation-cutoff example of the
specification: with `last_reconciled = 2024-01-15`, a new transaction
dated 2024-01-10 (amount 50) leaves the balance unchanged and one
dated 2024-01-20 (amount 50) increases it by exactly 50. -/
theorem claim5_witness :
    process_balance_updates [cardEx] [txEarly, txLate] =
      [{ cardEx with current_balance := 150 }] := by
  have h := (claim5_theorem [cardEx] [txEarly, txLate] (by decide)).2
  rw [h]
  simp [cardEx, txEarly, txLate, skipsReconciled, Date.lt]
  norm_num

/-! ### Savings chunking fixtures and claims (C6) -/

/-- A savings payload of 150 items, starting balance 0. -/
def data150 : SavingsData := ⟨0, List.replicate 150 ⟨"i", 1⟩⟩

/-- A small savings payload (2 operations in total). -/
def dataSmall : SavingsData := ⟨10, [⟨"a", 2⟩]⟩

/-- A fixed stand-in for the generated item UUIDs. -/
def uuidU : Nat → String := fun _ => "u"

set_option maxRecDepth 8000 in
/-- C6, counterexample: saving 150 items into an empty partition
produces 151 operations (the SUMMARY upsert plus 150 creates), so the
two submitted chunks have sizes 100 and 51 — not 100 and 50 as the
claim states. -/
theorem claim6_counterexample :
    (chunks100 (save_savings_ops [] data150 uuidU)).map List.length = [100, 51] ∧
    ([100, 51] : List Nat) ≠ [100, 50] := ⟨by decide, by decide⟩

set_option maxRecDepth 8000 in
/-- C6, amended: `save_savings` submits a single atomic batch when the
total operation count (deletes of existing ITEM rows, plus the SUMMARY
upsert, plus one create per item) is at most 100, and otherwise splits
into non-atomic chunks of at most 100 operations with a warning;
saving 150 savings items into an empty partition produces 151
operations submitted as exactly 2 chunks of 100 and 51 operations, and
a failure on the second chunk leaves the first chunk's 100 operations
committed. -/
theorem claim6_theorem (ops : List SavingsOp) (fails : Nat → Bool)
    (hle : ops.length ≤ 100) (hok : fails 0 = false) :
    save_savings_submit ops fails = (ops, false, false)
    ∧ (∀ c ∈ chunks100 ops, c.length ≤ 100)
    ∧ (save_savings_ops [] data150 uuidU).length = 151
    ∧ (chunks100 (save_savings_ops [] data150 uuidU)).map List.length = [100, 51]
    ∧ save_savings_submit (save_savings_ops [] data150 uuidU)
        (fun i => decide (i = 1)) =
        ((save_savings_ops [] data150 uuidU).take 100, true, true) := by
  refine ⟨?_, fun c hc => chunksFrom_length_le _ _ c hc, by decide, by decide,
    by decide⟩
  by_cases he : ops.isEmpty
  · have hnil : ops = [] := List.isEmpty_iff.mp he
    subst hnil
    rfl
  · rw [save_savings_submit, if_neg (by simp [he]), if_pos hle, hok]
    simp

/-- Witness for C6: a 2-operation save is submitted as one atomic
batch. -/
theorem claim6_witness :
    save_savings_submit (save_savings_ops [] dataSmall uuidU) (fun _ => false) =
      (save_savings_ops [] dataSmall uuidU, false, false) :=
  (claim6_theorem (save_savings_ops [] dataSmall uuidU) (fun _ => false)
    (by decide) rfl).1

/-! ### Aggregation fixtures and claims (C7, C8) -/

/-- A 10.00 DINING transaction on account 1. -/
def tx10 : Transaction := ⟨⟨2025, 8, 1⟩, "d", 1, 10, .DINING, .NOTHING⟩

/-- A 20.00 GROCERIES transaction on account 1. -/
def tx20 : Transaction := ⟨⟨2025, 8, 2⟩, "g", 1, 20, .GROCERIES, .NOTHING⟩

/-- A 30.00 DINING transaction on account 2. -/
def tx30 : Transaction := ⟨⟨2025, 8, 3⟩, "d2", 2, 30, .DINING, .NOTHING⟩

/-- A member with transactions 10.00 DINING and 20.00 GROCERIES. -/
def pW1 : Person := ⟨"Alice", "alice@example.com", [1], [tx10, tx20]⟩

/-- A member with one 30.00 DINING transaction. -/
def pW2 : Person := ⟨"Bob", "bob@example.com", [2], [tx30]⟩

/-- A person with no transactions. -/
def pEmpty : Person := ⟨"Nobody", "nobody@example.com", [], []⟩

/-- The two-member group of the specification's debt example. -/
def gW : Group := ⟨[pW1, pW2]⟩

/-- C7: `get_expenses_difference` and `get_debt` raise the membership
error iff `p1` or `p2` is missing from the member list; when both are
members, `get_expenses_difference` returns p1's total minus p2's total
(restricted to the optional category) and `get_debt` returns
scaleFactor × (sum of all members' totals) − p1's total, a rational
that may be negative. -/
theorem claim7_theorem (g : Group) (p1 p2 : Person) (c : Option Category)
    (sf : ℚ) :
    ((p1 ∉ g.members ∨ p2 ∉ g.members) →
      g.get_expenses_difference p1 p2 c = .error "People args missing from group"
      ∧ g.get_debt p1 p2 sf = .error "People args missing from group")
    ∧ (p1 ∈ g.members → p2 ∈ g.members →
      g.get_expenses_difference p1 p2 c =
        .ok (p1.get_expenses c - p2.get_expenses c)
      ∧ g.get_debt p1 p2 sf =
        .ok (sf * g.get_expenses - p1.get_expenses none)) := by
  constructor
  · intro hmiss
    have hno : ¬ (p1 ∈ g.members ∧ p2 ∈ g.members) := by tauto
    rw [Group.get_expenses_difference, if_neg hno, Group.get_debt, if_neg hno]
    exact ⟨rfl, rfl⟩
  · intro h1 h2
    rw [Group.get_expenses_difference, if_pos ⟨h1, h2⟩, Group.get_debt,
      if_pos ⟨h1, h2⟩]
    exact ⟨rfl, rfl⟩

/-- Witness for C7: totals 30.00 and 30.00 give
`get_debt(p1, p2, 0.5) = 0.5 × 60 − 30 = 0`; a scale factor of 0.4
gives the negative debt −6; and the expense difference is 0. -/
theorem claim7_witness :
    gW.get_debt pW1 pW2 (1/2) = Except.ok 0 ∧
    gW.get_debt pW1 pW2 (2/5) = Except.ok (-6) ∧ ((-6 : ℚ) < 0) ∧
    gW.get_expenses_difference pW1 pW2 none = Except.ok 0 := by
  have h1 := (claim7_theorem gW pW1 pW2 none (1/2)).2 (by decide) (by decide)
  have h2 := (claim7_theorem gW pW1 pW2 none (2/5)).2 (by decide) (by decide)
  refine ⟨?_, ?_, by norm_num, ?_⟩
  · rw [h1.2]
    simp [Group.get_expenses, Person.get_expenses, gW, pW1, pW2,
      tx10, tx20, tx30]
    norm_num
  · rw [h2.2]
    simp [Group.get_expenses, Person.get_expenses, gW, pW1, pW2,
      tx10, tx20, tx30]
    norm_num
  · rw [h1.1]
    simp [Person.get_expenses, pW1, pW2, tx10, tx20, tx30]
    norm_num

/-- C8: `Person.get_expenses` returns the exact sum of the amounts of
the person's attached transactions, restricted to the given category
when one is supplied; an empty transaction list yields exactly zero;
and on the specification's example (10.00 DINING, 20.00 GROCERIES) the
total is 30.00 and the DINING total is 10.00. -/
theorem claim8_theorem (p : Person) (c : Category) :
    p.get_expenses none = (p.transactions.map Transaction.amount).sum
    ∧ p.get_expenses (some c) =
        ((p.transactions.filter (fun t => decide (t.category = c))).map
          Transaction.amount).sum
    ∧ pEmpty.get_expenses none = 0
    ∧ pW1.get_expenses none = 30
    ∧ pW1.get_expenses (some Category.DINING) = 10 := by
  refine ⟨?_, ?_, rfl, ?_, ?_⟩
  · by_cases h : p.transactions.isEmpty
    · rw [Person.get_expenses, if_pos h, List.isEmpty_iff.mp h]
      rfl
    · rw [Person.get_expenses, if_neg h]
  · by_cases h : p.transactions.isEmpty
    · rw [Person.get_expenses, if_pos h, List.isEmpty_iff.mp h]
      rfl
    · rw [Person.get_expenses, if_neg h]
  · simp [Person.get_expenses, pW1, tx10, tx20]
    norm_num
  · simp [Person.get_expenses, pW1, tx10, tx20]

/-! ### CSV row normalization claims (C9) -/

/-- A row with a valid Date, Name and Account Number and no `Amount`
key at all. -/
def rowNoAmount : Row :=
  [("Date", "2024-01-01"), ("Name", "x"), ("Account Number", "1")]

/-- A row whose `Amount` value does not parse as a decimal. -/
def rowBadAmount : Row :=
  [("Date", "2024-01-01"), ("Name", "x"), ("Account Number", "1"),
    ("Amount", "abc")]

/-- The transaction produced from `rowNoAmount`: amount silently 0. -/
def tNoAmount : Transaction :=
  ⟨⟨2024, 1, 1⟩, "x", 1, 0, Category.OTHER, IgnoredFrom.NOTHING⟩

/-- C9, counterexample: a row with no `Amount` key produces a
transaction with amount 0 and no row error (the source defaults a
missing `Amount` to `"0"`), contradicting the claim that a missing
Amount yields a row error and no transaction. -/
theorem claim9_counterexample :
    to_transaction rowNoAmount = Except.ok tNoAmount := by
  have hD : rowGet (clean_row rowNoAmount) "Date" = some "2024-01-01" := by
    decide
  have hPd : parse_date "2024-01-01" = some ⟨2024, 1, 1⟩ := by decide
  have hN : rowGet (clean_row rowNoAmount) "Name" = some "x" := by decide
  have hAcct :
      parseInt ((rowGet (clean_row rowNoAmount) "Account Number").getD "") =
        some 1 := by decide
  have hA : rowGet (clean_row rowNoAmount) "Amount" = none := by decide
  have h0 : parseDecimal "0" = some 0 := by
    simp [parseDecimal, digitsToNat]
  have hC : rowGet (clean_row rowNoAmount) "Category" = none := by decide
  have hI :
      parseIgnoredFrom ((rowGet (clean_row rowNoAmount) "Ignored From").getD "") =
        some IgnoredFrom.NOTHING := by decide
  unfold to_transaction
  simp only [hD, hPd, hN, hAcct, hA, Option.getD_none, h0, hC, hI]
  rfl

/-- C9, amended: the Amount field must parse as an exact decimal
whenever it is present — a present `Amount` value that fails to parse
as a decimal (including an empty cell) produces a row error and no
transaction — but a row whose `Amount` key is entirely absent silently
defaults the amount to 0 and still yields a transaction. -/
theorem claim9_theorem (row : Row) (s : String) (t : Transaction) :
    ((rowGet (clean_row row) "Amount" = some s ∧ parseDecimal s = none) →
      ∃ e, to_transaction row = Except.error e)
    ∧ (rowGet (clean_row row) "Amount" = none →
        to_transaction row = Except.ok t → t.amount = 0) := by
  constructor
  · rintro ⟨hs, hp⟩
    have hAmt : parseDecimal ((rowGet (clean_row row) "Amount").getD "0") = none := by
      rw [hs]
      exact hp
    unfold to_transaction
    simp only [hAmt]
    repeat' split
    all_goals exact ⟨_, rfl⟩
  · intro hnone hok
    have hAmt : parseDecimal ((rowGet (clean_row row) "Amount").getD "0") =
        some 0 := by
      rw [hnone]
      simp [parseDecimal, digitsToNat]
    unfold to_transaction at hok
    simp only [hAmt] at hok
    repeat' split at hok
    all_goals cases hok
    all_goals rfl

/-- Witness for C9: an unparsable `Amount` value yields a row error,
and the no-`Amount`-key row yields a transaction whose amount is 0. -/
theorem claim9_witness :
    (∃ e, to_transaction rowBadAmount = Except.error e) ∧
    (to_transaction rowNoAmount = Except.ok tNoAmount → tNoAmount.amount = 0) :=
  ⟨(claim9_theorem rowBadAmount "abc" tNoAmount).1 ⟨by decide, by decide⟩,
    (claim9_theorem rowNoAmount "" tNoAmount).2 (by decide)⟩

end RMAnalyzer
